import Mathlib

/-!
Shallow embedding of `steam/user.py` (module for reading Steam user account
data).  The module consists of the exception class `ProfileError` and the
class `profile`, whose methods resolve a vanity id to a 64-bit id through an
sqlite-backed cache (`get_id64_from_sid`), fetch or load a profile summary
(`get_summary`, `load_summary_file`) and expose typed accessors over the
held summary dictionary.

Python values reachable in this module (parsed JSON, strings, ints, and the
`time.struct_time` produced by `time.localtime`) are embedded as the
inductive type `Value`.  Fallible Python code is embedded as `Except PyError`.
Network and database effects are made explicit: the network is an oracle
`String → String` from request URL to response body, and each run returns
the resulting sqlite cache table together with the list of I/O events it
performed, in order.
-/

/-- Embedding of the Python values that can appear in this module: `None`,
booleans, integers, strings, parsed-JSON lists and dicts (dicts as ordered
association lists), and the `time.struct_time` result of `time.localtime`
(kept abstract as the timestamp it was built from). -/
inductive Value where
  | null
  | bool (b : Bool)
  | int (n : Int)
  | str (s : String)
  | time (stamp : Int)
  | arr (xs : List Value)
  | obj (kvs : List (String × Value))

/-- Induction principle for `Value` that gives the inductive hypothesis for
every element of a list or association list. -/
theorem Value.inductionOn (P : Value → Prop)
    (hnull : P .null) (hbool : ∀ b, P (.bool b)) (hint : ∀ n, P (.int n))
    (hstr : ∀ s, P (.str s)) (htime : ∀ n, P (.time n))
    (harr : ∀ xs, (∀ v ∈ xs, P v) → P (.arr xs))
    (hobj : ∀ kvs, (∀ kv ∈ kvs, P kv.2) → P (.obj kvs)) :
    ∀ v, P v
  | .null => hnull
  | .bool b => hbool b
  | .int n => hint n
  | .str s => hstr s
  | .time n => htime n
  | .arr xs => harr xs (fun v hv =>
      have : sizeOf v < 1 + sizeOf xs := by
        have h1 := List.sizeOf_lt_of_mem hv
        omega
      Value.inductionOn P hnull hbool hint hstr htime harr hobj v)
  | .obj kvs => hobj kvs (fun kv hkv =>
      have : sizeOf kv.2 < 1 + sizeOf kvs := by
        have h1 := List.sizeOf_lt_of_mem hkv
        have h2 : sizeOf kv.2 < sizeOf kv := by
          obtain ⟨a, b⟩ := kv
          simp only [Prod.mk.sizeOf_spec]
          omega
        omega
      Value.inductionOn P hnull hbool hint hstr htime harr hobj kv.2)
termination_by v => sizeOf v

mutual

/-- Boolean structural equality on `Value`, used to build decidable
equality (the derive handler does not support this nested inductive). -/
def beqVal : Value → Value → Bool
  | .null, .null => true
  | .bool a, .bool b => a == b
  | .int a, .int b => a == b
  | .str a, .str b => a == b
  | .time a, .time b => a == b
  | .arr xs, .arr ys => beqItems xs ys
  | .obj xs, .obj ys => beqMembers xs ys
  | _, _ => false

/-- Pointwise `beqVal` on lists of values. -/
def beqItems : List Value → List Value → Bool
  | [], [] => true
  | x :: xs, y :: ys => beqVal x y && beqItems xs ys
  | _, _ => false

/-- Pointwise `beqVal` on association lists. -/
def beqMembers : List (String × Value) → List (String × Value) → Bool
  | [], [] => true
  | (k, v) :: xs, (l, w) :: ys => k == l && beqVal v w && beqMembers xs ys
  | _, _ => false

end

theorem beqVal_iff : ∀ a b : Value, beqVal a b = true ↔ a = b := by
  intro a
  induction a using Value.inductionOn with
  | hnull => intro b; cases b <;> simp [beqVal]
  | hbool x => intro b; cases b <;> simp [beqVal]
  | hint x => intro b; cases b <;> simp [beqVal]
  | hstr x => intro b; cases b <;> simp [beqVal]
  | htime x => intro b; cases b <;> simp [beqVal]
  | harr xs ih =>
    intro b
    cases b <;> simp [beqVal]
    case arr ys =>
      induction xs generalizing ys with
      | nil => cases ys <;> simp [beqItems]
      | cons x xs ihx =>
        cases ys with
        | nil => simp [beqItems]
        | cons y ys =>
          simp [beqItems, ih x (by simp)]
          intro _
          exact ihx (fun v hv => ih v (by simp [hv])) ys
  | hobj xs ih =>
    intro b
    cases b <;> simp [beqVal]
    case obj ys =>
      induction xs generalizing ys with
      | nil => cases ys <;> simp [beqMembers]
      | cons x xs ihx =>
        cases ys with
        | nil => simp [beqMembers]
        | cons y ys =>
          obtain ⟨k, v⟩ := x
          obtain ⟨l, w⟩ := y
          simp [beqMembers, ih (k, v) (by simp)]
          intro _ _
          exact ihx (fun kv hkv => ih kv (by simp [hkv])) ys

instance : DecidableEq Value := fun a b => decidable_of_iff _ (beqVal_iff a b)

deriving instance DecidableEq for Except

set_option maxRecDepth 8192

/-- Exceptions that the embedded code can raise.  `profileError` is the
module's own `ProfileError(msg)`; the rest are the built-in Python and
sqlite3 exceptions reachable from this module. -/
inductive PyError where
  | profileError (msg : String)
  | attributeError
  | keyError (key : String)
  | indexError
  | typeError
  | valueError
  | sqliteError
  deriving DecidableEq

/-- Python truthiness (`bool(v)`) for embedded values. -/
def pyTruthy : Value → Bool
  | .null => false
  | .bool b => b
  | .int n => n != 0
  | .str s => !s.isEmpty
  | .time _ => true
  | .arr xs => !xs.isEmpty
  | .obj kvs => !kvs.isEmpty

/-- First binding of `key` in an association list. -/
def lookupKey : List (String × Value) → String → Option Value
  | [], _ => none
  | (k, v) :: rest, key => if k = key then some v else lookupKey rest key

/-- Python subscript `v[key]` with a string key: dict lookup raising
`KeyError` on a missing key, `TypeError` on non-subscriptable values. -/
def Value.getItem (v : Value) (key : String) : Except PyError Value :=
  match v with
  | .obj kvs =>
    match lookupKey kvs key with
    | some w => .ok w
    | none => .error (.keyError key)
  | _ => .error .typeError

/-- Python subscript `v[0]`: first element of a list (raising `IndexError`
when empty), first character of a string, `KeyError` for a dict without an
integer key, `TypeError` otherwise. -/
def Value.getIdx0 : Value → Except PyError Value
  | .arr [] => .error .indexError
  | .arr (v :: _) => .ok v
  | .str s =>
    match s.data with
    | [] => .error .indexError
    | c :: _ => .ok (.str (String.mk [c]))
  | .obj _ => .error (.keyError ("0"))
  | _ => .error .typeError

/-- Python `v.get(key, dflt)` on the summary dict; on a non-dict the `.get`
attribute itself is missing, so `AttributeError`. -/
def pyGet (v : Value) (key : String) (dflt : Value) : Except PyError Value :=
  match v with
  | .obj kvs => .ok ((lookupKey kvs key).getD dflt)
  | _ => .error .attributeError

/-- Python `key in v` on a dict (key containment); `False` elsewhere (only
reached on dicts in this module). -/
def pyContains (v : Value) (key : String) : Bool :=
  match v with
  | .obj kvs => (lookupKey kvs key).isSome
  | _ => false

/-- Python `==` between an embedded value and an integer literal, as used by
`get_status`/`get_visibility` (`True == 1` and `False == 0` hold in Python). -/
def pyEqInt (v : Value) (n : Int) : Bool :=
  match v with
  | .int m => m == n
  | .bool b => (if b then (1 : Int) else 0) == n
  | _ => false

/-- Python `str(v)` restricted to the cases reachable in this module
(`get_summary` applies it to the resolved id, a string or an integer). -/
def pyStr : Value → String
  | .str s => s
  | .int n => toString n
  | .bool true => "True"
  | .bool false => "False"
  | .null => "None"
  | .time n => "time.struct_time:" ++ toString n
  | .arr _ => "<list>"
  | .obj _ => "<dict>"

/-- Python `s.isdigit()`: nonempty and all characters are digits. -/
def pyIsDigit (s : String) : Bool :=
  !s.isEmpty && s.data.all Char.isDigit

/-- Python `s.encode("ascii", "replace")`: non-ASCII characters become `?`. -/
def asciiReplace (s : String) : String :=
  String.mk (s.data.map (fun c => if c.toNat ≤ 127 then c else '?'))

/-- Index of the first occurrence of `sub` in a character list. -/
def findIdx (sub : List Char) : List Char → Option Nat
  | [] => if List.isPrefixOf sub [] then some 0 else none
  | c :: t =>
    if List.isPrefixOf sub (c :: t) then some 0
    else (findIdx sub t).map (· + 1)

/-- Python `hay.find(sub)`: first index of `sub` in `hay`, `-1` if absent. -/
def pyFind (hay sub : String) : Int :=
  match findIdx sub.data hay.data with
  | some n => (n : Int)
  | none => -1

/-- Python slice-index normalisation: negative indices count from the end,
then the index is clamped to `[0, len]`. -/
def pyNormIdx (len : Nat) (i : Int) : Nat :=
  let j := if i < 0 then i + len else i
  if j ≤ 0 then 0 else if j ≥ (len : Int) then len else j.toNat

/-- Python slice `s[i:j]` on strings. -/
def pySlice (s : String) (i j : Int) : String :=
  String.mk ((s.data.take (pyNormIdx s.data.length j)).drop (pyNormIdx s.data.length i))

example : pySlice ("<steamID64>123</steamID64>") 11 14 = "123" := by decide

example : pyFind ("<steamID64>123</steamID64>") ("</steamID64>") = 14 := by decide

/-- Row of the sqlite table `cache (sid TEXT, id64 INTEGER PRIMARY KEY)`.
`sid` is nullable (the insert step leaves it NULL until the update step);
`id64` has INTEGER affinity, so it always holds an integer. -/
structure CacheRow where
  sid : Option String
  id64 : Int
  deriving DecidableEq

/-- State of the id64 cache table, in rowid (insertion) order. -/
abbrev Cache := List CacheRow

/-- Primary-key invariant maintained by sqlite: at most one row per id64. -/
def uniqueIds (c : Cache) : Prop :=
  List.Pairwise (fun a b => a.id64 ≠ b.id64) c

/-- Embedding of `SELECT id64 FROM cache WHERE sid=? ... fetchone()`:
the first row whose sid equals the parameter (NULL never matches). -/
def selectIdBySid (c : Cache) (s : String) : Option Int :=
  (c.find? (fun r => r.sid == some s)).map (fun r => r.id64)

/-- Value of a digit string, most significant first. -/
def decDigitsVal (cs : List Char) : Nat :=
  cs.foldl (fun a c => a * 10 + (c.toNat - 48)) 0

/-- Value of a nonempty all-digit string, `none` otherwise. -/
def decDigits? (cs : List Char) : Option Nat :=
  if cs.isEmpty then none
  else if cs.all Char.isDigit then some (decDigitsVal cs) else none

/-- Conversion sqlite applies when storing TEXT into the INTEGER PRIMARY KEY
column `id64`: a well-formed integer literal is stored as an integer, any
other text raises a datatype mismatch error. -/
def sqliteTextToInt (t : String) : Option Int :=
  match t.data with
  | [] => none
  | c :: r =>
    if c = '-' then (decDigits? r).map (fun m => -(m : Int))
    else if c = '+' then (decDigits? r).map (fun m => (m : Int))
    else (decDigits? (c :: r)).map (fun m => (m : Int))

/-- Embedding of `INSERT OR IGNORE INTO cache (id64) VALUES (?)`: a conflict
on the primary key is ignored, otherwise a row with NULL sid is appended. -/
def insertOrIgnoreId64 (c : Cache) (n : Int) : Cache :=
  if c.any (fun r => r.id64 == n) then c else c ++ [⟨none, n⟩]

/-- Embedding of `UPDATE cache SET sid=? WHERE id64=?`. -/
def updateSidWhereId64 (c : Cache) (s : String) (n : Int) : Cache :=
  c.map (fun r => if r.id64 == n then { r with sid := some s } else r)

/-- The store operation of `get_id64_from_sid` on a legacy-endpoint hit: the
insert-then-update pair of `cache.execute` calls, both with the extracted
`<steamID64>` text; sqlite coerces that text into the INTEGER column. -/
def storeMapping (c : Cache) (s : String) (idText : String) : Except PyError Cache :=
  match sqliteTextToInt idText with
  | none => .error .sqliteError
  | some n => .ok (updateSidWhereId64 (insertOrIgnoreId64 c n) s n)

/-- I/O events a run can perform, in order: an HTTP GET of a URL, and the
three SQL statements executed against the id64 cache. -/
inductive Event where
  | httpGet (url : String)
  | dbSelect (sid : String)
  | dbInsert (idText : String)
  | dbUpdate (sid : String) (idText : String)
  deriving DecidableEq

/-- Embedding of `self._old_profile_url.format(sid)`:
`http://steamcommunity.com/id/{0:s}?xml=1`. -/
def old_profile_url (sid : String) : String :=
  "http://steamcommunity.com/id/" ++ sid ++ "?xml=1"

/-- Embedding of `self._profile_url` as built in `__init__` from the api key
(`steam.get_api_key()` is an external collaborator, passed in as `apiKey`). -/
def profile_url (apiKey : String) : String :=
  "http://api.steampowered.com/ISteamUser/GetPlayerSummaries/v0001/?key=" ++ apiKey ++ "&steamids="

/-- Embedding of `profile.get_id64_from_sid(sid)`.  `net` is the network
oracle.  Returns the Python return value (`none` embeds the implicit
`return None` fall-through), the resulting cache table, and the event list.
The source's `type(sid) == str` guard is always true here because every sid
this embedding passes is a byte string.  Note the asymmetry the claims care
about: a fresh legacy resolution returns the extracted text (a `str`), while
a cache hit returns the INTEGER-affinity column value (an `int`). -/
def get_id64_from_sid (net : String → String) (c : Cache) (sid : String) :
    Except PyError (Option Value) × Cache × List Event :=
  if pyIsDigit sid then (.ok (some (.str sid)), c, [])
  else
    match selectIdBySid c sid with
    | some n => (.ok (some (.int n)), c, [.dbSelect sid])
    | none =>
      let url := old_profile_url sid
      let prof := net url
      if pyFind prof ("<steamID64>") ≠ -1 then
        let idText := pySlice prof (pyFind prof ("<steamID64>") + 11) (pyFind prof ("</steamID64>"))
        match storeMapping c sid idText with
        | .error e => (.error e, c, [.dbSelect sid, .httpGet url, .dbInsert idText])
        | .ok c2 =>
          (.ok (some (.str idText)), c2,
            [.dbSelect sid, .httpGet url, .dbInsert idText, .dbUpdate sid idText])
      else (.ok none, c, [.dbSelect sid, .httpGet url])

/-- Character for a single decimal digit. -/
def digitChar : Nat → Char
  | 0 => '0'
  | 1 => '1'
  | 2 => '2'
  | 3 => '3'
  | 4 => '4'
  | 5 => '5'
  | 6 => '6'
  | 7 => '7'
  | 8 => '8'
  | 9 => '9'
  | _ => '*'

/-- Numeric value of a decimal digit character. -/
def digitVal (c : Char) : Nat := c.toNat - 48

/-- Fuelled most-significant-first decimal printer (fuel keeps the recursion
structural so that the kernel can evaluate it; any fuel above the argument
is enough). -/
def natCharsFuel : Nat → Nat → List Char → List Char
  | 0, _, acc => acc
  | f + 1, n, acc =>
    if n < 10 then digitChar n :: acc
    else natCharsFuel f (n / 10) (digitChar (n % 10) :: acc)

/-- Decimal digits of a natural number. -/
def natChars (n : Nat) : List Char := natCharsFuel (n + 1) n []

/-- Decimal representation of an integer, as `json.dumps` prints it. -/
def intChars (n : Int) : List Char :=
  if n < 0 then '-' :: natChars (-n).toNat else natChars n.toNat

/-- Serialised form of one object member (`"key":value`). -/
def memberChars (k : String) (sv : List Char) : List Char :=
  '"' :: k.data ++ '"' :: ':' :: sv

mutual

/-- JSON serialisation of a value, modelling the external `json.dump` the
round-trip claim composes with `load_summary_file` (compact separators, no
escape sequences; `Value.time` never appears in a serialised summary and
gets an arbitrary non-JSON spelling). -/
def serializeVal : Value → List Char
  | .null => ("null").data
  | .bool true => ("true").data
  | .bool false => ("false").data
  | .int n => intChars n
  | .str s => '"' :: s.data ++ [ '"']
  | .time n => '<' :: intChars n ++ [ '>']
  | .arr xs => '[' :: serializeItems xs ++ [ ']']
  | .obj kvs => '{' :: serializeMembers kvs ++ [ '}']

/-- Comma-separated serialisation of list elements. -/
def serializeItems : List Value → List Char
  | [] => []
  | [v] => serializeVal v
  | v :: vs => serializeVal v ++ ',' :: serializeItems vs

/-- Comma-separated serialisation of object members. -/
def serializeMembers : List (String × Value) → List Char
  | [] => []
  | [(k, v)] => memberChars k (serializeVal v)
  | (k, v) :: ms => memberChars k (serializeVal v) ++ ',' :: serializeMembers ms

end

/-- String produced by serialising a summary value. -/
def json_dumps (v : Value) : String := String.mk (serializeVal v)

/-- Longest digit prefix, accumulated into a number. -/
def parseDigitsAux : Nat → List Char → Nat × List Char
  | acc, [] => (acc, [])
  | acc, c :: r => if c.isDigit then parseDigitsAux (acc * 10 + digitVal c) r else (acc, c :: r)

/-- Parse a natural number (at least one digit). -/
def parseNatNum : List Char → Option (Nat × List Char)
  | [] => none
  | c :: r => if c.isDigit then some (parseDigitsAux (digitVal c) r) else none

/-- Parse an optionally negated integer. -/
def parseIntNum : List Char → Option (Int × List Char)
  | [] => none
  | c :: r =>
    if c = '-' then
      match parseNatNum r with
      | some (m, rest) => some (-(m : Int), rest)
      | none => none
    else
      match parseNatNum (c :: r) with
      | some (m, rest) => some ((m : Int), rest)
      | none => none

/-- Consume characters up to the closing quote of a string literal. -/
def takeStr : List Char → Option (List Char × List Char)
  | [] => none
  | c :: r =>
    if c = '"' then some ([], r)
    else
      match takeStr r with
      | some (s, rest) => some (c :: s, rest)
      | none => none

mutual

/-- Fuelled JSON parser for one value, the inverse direction of
`serializeVal`; together with it this models the external
`json.loads`/`json.load` used by `get_summary` and `load_summary_file`
(whitespace-free documents, integer numbers, escape-free strings). -/
def parseVal : Nat → List Char → Option (Value × List Char)
  | 0, _ => none
  | _ + 1, [] => none
  | f + 1, c :: r =>
    if c.isDigit || c = '-' then
      match parseIntNum (c :: r) with
      | some (n, rest) => some (.int n, rest)
      | none => none
    else if c = '"' then
      match takeStr r with
      | some (s, rest) => some (.str (String.mk s), rest)
      | none => none
    else if c = '[' then
      match r with
      | [] => none
      | c2 :: r2 =>
        if c2 = ']' then some (.arr [], r2)
        else
          match parseItems f (c2 :: r2) with
          | some (xs, rest) => some (.arr xs, rest)
          | none => none
    else if c = '{' then
      match r with
      | [] => none
      | c2 :: r2 =>
        if c2 = '}' then some (.obj [], r2)
        else
          match parseMembers f (c2 :: r2) with
          | some (ms, rest) => some (.obj ms, rest)
          | none => none
    else if c = 'n' then
      match r with
      | 'u' :: 'l' :: 'l' :: rest => some (.null, rest)
      | _ => none
    else if c = 't' then
      match r with
      | 'r' :: 'u' :: 'e' :: rest => some (.bool true, rest)
      | _ => none
    else if c = 'f' then
      match r with
      | 'a' :: 'l' :: 's' :: 'e' :: rest => some (.bool false, rest)
      | _ => none
    else none

/-- Parse the items of a nonempty array up to and including `]`. -/
def parseItems : Nat → List Char → Option (List Value × List Char)
  | 0, _ => none
  | f + 1, cs =>
    match parseVal f cs with
    | some (v, r) =>
      match r with
      | ',' :: r2 =>
        match parseItems f r2 with
        | some (vs, rest) => some (v :: vs, rest)
        | none => none
      | ']' :: rest => some ([v], rest)
      | _ => none
    | none => none

/-- Parse the members of a nonempty object up to and including the closing
brace. -/
def parseMembers : Nat → List Char → Option (List (String × Value) × List Char)
  | 0, _ => none
  | f + 1, cs =>
    match cs with
    | '"' :: r =>
      match takeStr r with
      | some (k, r2) =>
        match r2 with
        | ':' :: r3 =>
          match parseVal f r3 with
          | some (v, r4) =>
            match r4 with
            | ',' :: r5 =>
              match parseMembers f r5 with
              | some (ms, rest) => some ((String.mk k, v) :: ms, rest)
              | none => none
            | '}' :: rest => some ([(String.mk k, v)], rest)
            | _ => none
          | none => none
        | _ => none
      | none => none
    | _ => none

end

/-- Embedding of `json.loads(body)`: parse the whole document or raise
`ValueError` (surfaced as `none` here; callers turn it into the error). -/
def jsonLoads (body : String) : Option Value :=
  match parseVal (body.length + 1) body.data with
  | some (v, []) => some v
  | _ => none

example : jsonLoads ("\x7b\"a\":[1,-25,\"x\"],\"b\":null\x7d") =
    some (.obj [("a", .arr [.int 1, .int (-25), .str ("x")]), ("b", .null)]) := by decide

/-- State of one `profile` instance: the `_summary_object` attribute, which
is unset (`none`) until `get_summary` or `load_summary_file` first assigns
it. -/
structure ProfileState where
  summary : Option Value
  deriving DecidableEq

/-- State of a freshly constructed `profile()` instance (no sid argument):
`__init__` creates the cache table but never assigns `_summary_object`. -/
def initState : ProfileState := ⟨none⟩

/-- Extraction `["response"]["players"]["player"][0]` applied to the parsed
summary-endpoint response. -/
def getPlayer0 (j : Value) : Except PyError Value := do
  let r ← j.getItem ("response")
  let p ← r.getItem ("players")
  let pl ← p.getItem ("player")
  pl.getIdx0

/-- Fallback of `get_summary`: `if not id64: id64 = sid` applied to the
result of `get_id64_from_sid` (with the original, unencoded `sid`). -/
def fallbackId64 (r : Option Value) (sid : String) : Value :=
  match r with
  | some v => if pyTruthy v then v else .str sid
  | none => .str sid

namespace profile

/-- Embedding of `profile.get_summary(sid)`.  Returns the Python result
(the summary object, or the raised exception), the cache table, the
instance state, and the events performed.  Mirrors the source order: the
response element is assigned to `_summary_object` before the truthiness
check that raises `ProfileError("Profile not found")`. -/
def get_summary (net : String → String) (apiKey : String) (c : Cache)
    (st : ProfileState) (sid : String) :
    Except PyError Value × Cache × ProfileState × List Event :=
  match get_id64_from_sid net c (asciiReplace sid) with
  | (.error e, c1, evs) => (.error e, c1, st, evs)
  | (.ok r, c1, evs) =>
    let id64 := fallbackId64 r sid
    let url := profile_url apiKey ++ pyStr id64
    let evs2 := evs ++ [.httpGet url]
    match jsonLoads (net url) with
    | none => (.error .valueError, c1, st, evs2)
    | some j =>
      match getPlayer0 j with
      | .error e => (.error e, c1, st, evs2)
      | .ok s =>
        if pyTruthy s then (.ok s, c1, ⟨some s⟩, evs2)
        else (.error (.profileError ("Profile not found")), c1, ⟨some s⟩, evs2)

/-- Document handed to `load_summary_file`: either the contents of a
pickled-dict file or of a JSON text file, per the `pickled` flag. -/
inductive SummaryDoc where
  | pickled (v : Value)
  | jsonText (t : String)

/-- Modelled from the spec: `cPickle.load`/`cPickle.dumps` on a summary dict
are external standard-library collaborators not part of this repository;
per the spec both serialised formats "deserialize to the same in-memory
summary shape", so a pickled document is embedded as the value it encodes
and `pickle_load` recovers it. -/
def pickle_load (v : Value) : Value := v

/-- Modelled from the spec: the serialisation half of the pickle
collaborator, inverse of `pickle_load`. -/
def pickle_dumps (v : Value) : SummaryDoc := .pickled v

/-- Embedding of `profile.load_summary_file(summary, pickled)`. -/
def load_summary_file (st : ProfileState) (doc : SummaryDoc) :
    Except PyError Unit × ProfileState :=
  match doc with
  | .pickled v => (.ok (), ⟨some (pickle_load v)⟩)
  | .jsonText t =>
    match jsonLoads t with
    | some v => (.ok (), ⟨some v⟩)
    | none => (.error .valueError, st)

/-- Access to the raw `_summary_object` attribute: `AttributeError` when it
was never assigned.  Every accessor except `get_summary_object` reads the
attribute directly and therefore surfaces this `AttributeError` unwrapped. -/
def attrSummary (st : ProfileState) : Except PyError Value :=
  match st.summary with
  | some v => .ok v
  | none => .error .attributeError

/-- Embedding of `profile.get_summary_object()`: the only accessor that
catches the `AttributeError` and re-raises `ProfileError("No summary")`. -/
def get_summary_object (st : ProfileState) : Except PyError Value :=
  match st.summary with
  | some v => .ok v
  | none => .error (.profileError ("No summary"))

/-- Embedding of `profile.get_id64()`. -/
def get_id64 (st : ProfileState) : Except PyError Value := do
  (← attrSummary st).getItem ("steamid")

/-- Embedding of `profile.get_persona()`. -/
def get_persona (st : ProfileState) : Except PyError Value := do
  (← attrSummary st).getItem ("personaname")

/-- Embedding of `profile.get_profile_url()`. -/
def get_profile_url (st : ProfileState) : Except PyError Value := do
  (← attrSummary st).getItem ("profileurl")

/-- Embedding of `profile.get_avatar_url(size)`. -/
def get_avatar_url (st : ProfileState) (size : String) : Except PyError Value := do
  (← attrSummary st).getItem (size)

/-- Embedding of `profile.get_status()`. -/
def get_status (st : ProfileState) : Except PyError Value := do
  let status ← (← attrSummary st).getItem ("personastate")
  if pyEqInt status 0 then pure (.str ("offline"))
  else if pyEqInt status 1 then pure (.str ("online"))
  else if pyEqInt status 2 then pure (.str ("busy"))
  else if pyEqInt status 3 then pure (.str ("away"))
  else if pyEqInt status 4 then pure (.str ("snooze"))
  else pure status

/-- Embedding of `profile.get_visibility()`. -/
def get_visibility (st : ProfileState) : Except PyError Value := do
  let vis ← (← attrSummary st).getItem ("communityvisibilitystate")
  if pyEqInt vis 1 then pure (.str ("private"))
  else if pyEqInt vis 2 then pure (.str ("friends"))
  else if pyEqInt vis 3 then pure (.str ("public"))
  else pure vis

/-- Embedding of `profile.is_configured()`. -/
def is_configured (st : ProfileState) : Except PyError Value := do
  pyGet (← attrSummary st) ("profilestate") (.bool false)

/-- Embedding of `time.localtime(v)` (external collaborator): defined for
numbers, `TypeError` otherwise; the calendar struct is kept abstract as
`Value.time` of the timestamp. -/
def localtime (v : Value) : Except PyError Value :=
  match v with
  | .int n => .ok (.time n)
  | .bool b => .ok (.time (if b then 1 else 0))
  | _ => .error .typeError

/-- Embedding of `profile.get_last_online()`. -/
def get_last_online (st : ProfileState) : Except PyError Value := do
  localtime (← (← attrSummary st).getItem ("lastlogoff"))

/-- Embedding of `profile.is_comment_enabled()`. -/
def is_comment_enabled (st : ProfileState) : Except PyError Value := do
  pyGet (← attrSummary st) ("commentpermission") (.bool false)

/-- Embedding of `profile.get_real_name()`. -/
def get_real_name (st : ProfileState) : Except PyError Value := do
  pyGet (← attrSummary st) ("realname") .null

/-- Embedding of `profile.get_primary_group()`. -/
def get_primary_group (st : ProfileState) : Except PyError Value := do
  pyGet (← attrSummary st) ("primaryclanid") .null

/-- Embedding of `profile.get_creation_date()` (implicit `return None` when
the timestamp is missing or falsy). -/
def get_creation_date (st : ProfileState) : Except PyError Value := do
  let timestamp ← pyGet (← attrSummary st) ("timecreated") .null
  if pyTruthy timestamp then localtime timestamp else pure .null

/-- Optional entry of the dict built by `get_current_game`/`get_location`:
present under `outKey` exactly when `key` is in the summary. -/
def optEntry (s : Value) (key : String) (outKey : String) : List (String × Value) :=
  match s with
  | .obj kvs =>
    match lookupKey kvs key with
    | some v => [(outKey, v)]
    | none => []
  | _ => []

/-- Embedding of `profile.get_current_game()`: `None` (not a dict) when the
visibility is anything other than the string `"public"`. -/
def get_current_game (st : ProfileState) : Except PyError Value := do
  let vis ← get_visibility st
  if vis = .str ("public") then
    let s ← attrSummary st
    pure (.obj (optEntry s ("gameid") ("id") ++ optEntry s ("gameserverip") ("server") ++
      optEntry s ("gameextrainfo") ("extra")))
  else pure .null

/-- Embedding of `profile.get_location()`: `None` when the visibility is
anything other than the string `"public"`. -/
def get_location (st : ProfileState) : Except PyError Value := do
  let vis ← get_visibility st
  if vis = .str ("public") then
    let s ← attrSummary st
    pure (.obj (optEntry s ("loccountrycode") ("country") ++ optEntry s ("locstatecode") ("state")))
  else pure .null

/-- Operations that can change the `_summary_object` state of an instance:
a `get_summary` call (with its ambient network, key and cache) or a
`load_summary_file` call.  The read-only accessors take the state as an
argument and return no state, so they are not listed. -/
inductive Op where
  | fetch (net : String → String) (apiKey : String) (c : Cache) (sid : String)
  | load (doc : SummaryDoc)

/-- State transition of one operation. -/
def applyOp (st : ProfileState) : Op → ProfileState
  | .fetch net apiKey c sid => (get_summary net apiKey c st sid).2.2.1
  | .load doc => (load_summary_file st doc).2

end profile

/-- True when the list does not start with a digit (so a decimal parse
cannot extend into it). -/
def noDigitHead : List Char → Bool
  | [] => true
  | c :: _ => !c.isDigit

theorem digitChar_isDigit (d : Nat) (h : d < 10) : (digitChar d).isDigit = true := by
  interval_cases d <;> decide

theorem digitVal_digitChar (d : Nat) (h : d < 10) : digitVal (digitChar d) = d := by
  interval_cases d <;> decide

theorem isDigit_ne_minus {c : Char} (h : c.isDigit = true) : ¬ c = '-' := by
  rintro rfl
  exact absurd h (by decide)

theorem isDigit_ne_rbracket {c : Char} (h : c.isDigit = true) : ¬ c = ']' := by
  rintro rfl
  exact absurd h (by decide)

theorem natCharsFuel_irrel (n : Nat) : ∀ f g acc, n < f → n < g →
    natCharsFuel f n acc = natCharsFuel g n acc := by
  induction n using Nat.strong_induction_on with
  | _ n ih =>
    intro f g acc hf hg
    match f, g with
    | f + 1, g + 1 =>
      simp only [natCharsFuel]
      by_cases h10 : n < 10
      · rw [if_pos h10, if_pos h10]
      · rw [if_neg h10, if_neg h10]
        have hd : n / 10 < n := Nat.div_lt_self (by omega) (by omega)
        exact ih (n / 10) hd f g _ (by omega) (by omega)

theorem natCharsFuel_shift (n : Nat) : ∀ f acc, n < f →
    natCharsFuel f n acc = natChars n ++ acc := by
  induction n using Nat.strong_induction_on with
  | _ n ih =>
    intro f acc hf
    match f with
    | f + 1 =>
      by_cases h10 : n < 10
      · simp only [natCharsFuel, natChars, if_pos h10]
        simp
      · have hd : n / 10 < n := Nat.div_lt_self (by omega) (by omega)
        simp only [natCharsFuel, natChars, if_neg h10]
        rw [ih (n / 10) hd f _ (by omega), ih (n / 10) hd n _ (by omega)]
        simp

theorem natChars_eq (n : Nat) : natChars n =
    if n < 10 then [digitChar n] else natChars (n / 10) ++ [digitChar (n % 10)] := by
  by_cases h10 : n < 10
  · simp only [natChars, natCharsFuel, if_pos h10]
  · have hd : n / 10 < n := Nat.div_lt_self (by omega) (by omega)
    simp only [natChars, natCharsFuel, if_neg h10]
    exact natCharsFuel_shift (n / 10) n _ (by omega)

theorem natChars_ne_nil (n : Nat) : natChars n ≠ [] := by
  rw [natChars_eq]
  by_cases h10 : n < 10
  · simp [h10]
  · simp [h10]

theorem natChars_all_digits (n : Nat) : ∀ c ∈ natChars n, c.isDigit = true := by
  induction n using Nat.strong_induction_on with
  | _ n ih =>
    rw [natChars_eq]
    by_cases h10 : n < 10
    · simp only [if_pos h10, List.mem_singleton]
      rintro c rfl
      exact digitChar_isDigit n h10
    · have hd : n / 10 < n := Nat.div_lt_self (by omega) (by omega)
      simp only [if_neg h10, List.mem_append, List.mem_singleton]
      rintro c (hc | rfl)
      · exact ih (n / 10) hd c hc
      · exact digitChar_isDigit (n % 10) (Nat.mod_lt n (by omega))

theorem foldl_natChars (n : Nat) : ∀ acc : Nat,
    (natChars n).foldl (fun a c => a * 10 + digitVal c) acc =
      acc * 10 ^ (natChars n).length + n := by
  induction n using Nat.strong_induction_on with
  | _ n ih =>
    intro acc
    rw [natChars_eq]
    by_cases h10 : n < 10
    · simp only [if_pos h10, List.foldl_cons, List.foldl_nil, List.length_singleton]
      rw [digitVal_digitChar n h10]
      ring
    · have hd : n / 10 < n := Nat.div_lt_self (by omega) (by omega)
      simp only [if_neg h10, List.foldl_append, List.foldl_cons, List.foldl_nil,
        List.length_append, List.length_singleton]
      rw [ih (n / 10) hd acc, digitVal_digitChar (n % 10) (Nat.mod_lt n (by omega))]
      have hnm := Nat.div_add_mod n 10
      rw [pow_succ]
      ring_nf
      omega

theorem parseDigitsAux_digits (ds : List Char) (hd : ∀ c ∈ ds, c.isDigit = true) :
    ∀ acc rest, parseDigitsAux acc (ds ++ rest) =
      parseDigitsAux (ds.foldl (fun a c => a * 10 + digitVal c) acc) rest := by
  induction ds with
  | nil => intro acc rest; simp
  | cons c ds ihd =>
    intro acc rest
    simp only [List.cons_append, parseDigitsAux, List.foldl_cons]
    rw [if_pos (hd c (by simp))]
    exact ihd (fun x hx => hd x (by simp [hx])) _ rest

theorem parseDigitsAux_stop (acc : Nat) (rest : List Char) (h : noDigitHead rest = true) :
    parseDigitsAux acc rest = (acc, rest) := by
  cases rest with
  | nil => rfl
  | cons c r =>
    simp only [noDigitHead, Bool.not_eq_true'] at h
    simp only [parseDigitsAux]
    rw [if_neg (by simp [h])]

theorem parseNatNum_natChars (n : Nat) (rest : List Char) (h : noDigitHead rest = true) :
    parseNatNum (natChars n ++ rest) = some (n, rest) := by
  cases hnc : natChars n with
  | nil => exact absurd hnc (natChars_ne_nil n)
  | cons c ds =>
    have hcd : c.isDigit = true := natChars_all_digits n c (by rw [hnc]; simp)
    have hds : ∀ x ∈ ds, x.isDigit = true := fun x hx =>
      natChars_all_digits n x (by rw [hnc]; simp [hx])
    simp only [List.cons_append, parseNatNum, if_pos hcd]
    rw [parseDigitsAux_digits ds hds _ rest, parseDigitsAux_stop _ _ h]
    have hfold : (natChars n).foldl (fun a c => a * 10 + digitVal c) 0 = n := by
      rw [foldl_natChars n 0]
      ring
    rw [hnc] at hfold
    simp only [List.foldl_cons] at hfold
    rw [show (0 * 10 + digitVal c) = digitVal c by ring] at hfold
    rw [hfold]

theorem parseIntNum_intChars (n : Int) (rest : List Char) (h : noDigitHead rest = true) :
    parseIntNum (intChars n ++ rest) = some (n, rest) := by
  by_cases hneg : n < 0
  · simp only [intChars, if_pos hneg, List.cons_append, parseIntNum, if_pos rfl]
    rw [parseNatNum_natChars _ rest h]
    have : (((-n).toNat : Int)) = -n := Int.toNat_of_nonneg (by omega)
    simp [this]
  · simp only [intChars, if_neg hneg]
    cases hnc : natChars n.toNat with
    | nil => exact absurd hnc (natChars_ne_nil n.toNat)
    | cons c ds =>
      have hcd : c.isDigit = true := natChars_all_digits n.toNat c (by rw [hnc]; simp)
      simp only [List.cons_append, parseIntNum, if_neg (isDigit_ne_minus hcd)]
      rw [← List.cons_append, ← hnc, parseNatNum_natChars _ rest h]
      have : ((n.toNat : Int)) = n := Int.toNat_of_nonneg (by omega)
      simp [this]

theorem takeStr_clean (s : List Char) (hs : s.all (fun c => c != '"') = true) (rest : List Char) :
    takeStr (s ++ '"' :: rest) = some (s, rest) := by
  induction s with
  | nil => rfl
  | cons c r ihr =>
    simp only [List.all_cons, Bool.and_eq_true, bne_iff_ne] at hs
    simp only [List.cons_append, takeStr, List.append_eq]
    rw [if_neg hs.1, ihr hs.2]

mutual

/-- Summary values on which the JSON model is exact: no `time` node (never
part of a fetched summary) and no double quote inside strings or keys (the
model serialises without escape sequences). -/
def cleanVal : Value → Bool
  | .null => true
  | .bool _ => true
  | .int _ => true
  | .str s => s.data.all (fun c => c != '"')
  | .time _ => false
  | .arr xs => cleanItems xs
  | .obj kvs => cleanMembers kvs

/-- Pointwise `cleanVal` over list elements. -/
def cleanItems : List Value → Bool
  | [] => true
  | v :: vs => cleanVal v && cleanItems vs

/-- Pointwise `cleanVal` over members, including their keys. -/
def cleanMembers : List (String × Value) → Bool
  | [] => true
  | (k, v) :: ms => k.data.all (fun c => c != '"') && cleanVal v && cleanMembers ms

end

mutual

/-- Parser fuel sufficient for a serialised value (one unit per nesting
step; any larger fuel also works). -/
def fuelVal : Value → Nat
  | .arr xs => 1 + fuelItems xs
  | .obj kvs => 1 + fuelMembers kvs
  | _ => 1

/-- Fuel sufficient for the items of a serialised array. -/
def fuelItems : List Value → Nat
  | [] => 1
  | v :: vs => 1 + max (fuelVal v) (fuelItems vs)

/-- Fuel sufficient for the members of a serialised object. -/
def fuelMembers : List (String × Value) → Nat
  | [] => 1
  | (_, v) :: ms => 1 + max (fuelVal v) (fuelMembers ms)

end

theorem parseVal_null (f : Nat) (rest : List Char) :
    parseVal (f + 1) ('n' :: 'u' :: 'l' :: 'l' :: rest) = some (.null, rest) := rfl

theorem parseVal_true (f : Nat) (rest : List Char) :
    parseVal (f + 1) ('t' :: 'r' :: 'u' :: 'e' :: rest) = some (.bool true, rest) := rfl

theorem parseVal_false (f : Nat) (rest : List Char) :
    parseVal (f + 1) ('f' :: 'a' :: 'l' :: 's' :: 'e' :: rest) = some (.bool false, rest) := rfl

theorem parseVal_quote (f : Nat) (r : List Char) :
    parseVal (f + 1) ('"' :: r) =
      (match takeStr r with
        | some (s, rest) => some (.str (String.mk s), rest)
        | none => none) := rfl

theorem parseVal_lbracket (f : Nat) (r : List Char) :
    parseVal (f + 1) ('[' :: r) =
      (match r with
        | [] => none
        | c2 :: r2 =>
          if c2 = ']' then some (.arr [], r2)
          else
            match parseItems f (c2 :: r2) with
            | some (xs, rest) => some (.arr xs, rest)
            | none => none) := rfl

theorem parseVal_lbrace (f : Nat) (r : List Char) :
    parseVal (f + 1) ('{' :: r) =
      (match r with
        | [] => none
        | c2 :: r2 =>
          if c2 = '}' then some (.obj [], r2)
          else
            match parseMembers f (c2 :: r2) with
            | some (ms, rest) => some (.obj ms, rest)
            | none => none) := rfl

theorem parseVal_num (f : Nat) (c : Char) (r : List Char)
    (h : (c.isDigit || c = '-') = true) :
    parseVal (f + 1) (c :: r) =
      (match parseIntNum (c :: r) with
        | some (n, rest) => some (.int n, rest)
        | none => none) := by
  simp only [parseVal]
  rw [if_pos h]

theorem intChars_cons (n : Int) :
    ∃ c r, intChars n = c :: r ∧ (c.isDigit || c = '-') = true := by
  by_cases hneg : n < 0
  · exact ⟨'-', natChars (-n).toNat, by simp [intChars, hneg], by simp⟩
  · cases hnc : natChars n.toNat with
    | nil => exact absurd hnc (natChars_ne_nil n.toNat)
    | cons c ds =>
      refine ⟨c, ds, by simp [intChars, hneg, hnc], ?_⟩
      have := natChars_all_digits n.toNat c (by rw [hnc]; simp)
      simp [this]

theorem serializeVal_cons (v : Value) :
    ∃ c r, serializeVal v = c :: r ∧ ¬ c = ']' := by
  cases v with
  | null => exact ⟨'n', _, rfl, by decide⟩
  | bool b => cases b with
    | true => exact ⟨'t', _, rfl, by decide⟩
    | false => exact ⟨'f', _, rfl, by decide⟩
  | int n =>
    obtain ⟨c, r, hcr, hc⟩ := intChars_cons n
    refine ⟨c, r, by simp [serializeVal, hcr], ?_⟩
    rcases Bool.or_eq_true_iff.mp hc with hd | he
    · exact isDigit_ne_rbracket hd
    · rw [decide_eq_true_iff] at he
      rw [he]
      decide
  | str s => exact ⟨'"', _, rfl, by decide⟩
  | time n => exact ⟨'<', _, rfl, by decide⟩
  | arr xs => exact ⟨'[', _, rfl, by decide⟩
  | obj kvs => exact ⟨'{', _, rfl, by decide⟩

theorem serializeItems_cons (xs : List Value) (hne : xs ≠ []) :
    ∃ c r, serializeItems xs = c :: r ∧ ¬ c = ']' := by
  cases xs with
  | nil => exact absurd rfl hne
  | cons v vs =>
    obtain ⟨c, r, hcr, hc⟩ := serializeVal_cons v
    cases vs with
    | nil => exact ⟨c, r, by simp [serializeItems, hcr], hc⟩
    | cons w ws =>
      exact ⟨c, r ++ ',' :: serializeItems (w :: ws), by simp [serializeItems, hcr], hc⟩

theorem serializeMembers_cons (ms : List (String × Value)) (hne : ms ≠ []) :
    ∃ r, serializeMembers ms = '"' :: r := by
  cases ms with
  | nil => exact absurd rfl hne
  | cons m ms2 =>
    obtain ⟨k, v⟩ := m
    cases ms2 with
    | nil =>
      exact ⟨k.data ++ '"' :: ':' :: serializeVal v, by simp [serializeMembers, memberChars]⟩
    | cons m2 ms3 =>
      exact ⟨k.data ++ '"' :: ':' :: (serializeVal v ++ ',' :: serializeMembers (m2 :: ms3)),
        by simp [serializeMembers, memberChars]⟩

theorem stringMk_data (s : String) : String.mk s.data = s := rfl

theorem parseVal_lbracket_cons (f : Nat) (c2 : Char) (r2 : List Char) :
    parseVal (f + 1) ('[' :: c2 :: r2) =
      (if c2 = ']' then some (.arr [], r2)
       else
        match parseItems f (c2 :: r2) with
        | some (xs, rest) => some (.arr xs, rest)
        | none => none) := rfl

theorem parseVal_lbrace_cons (f : Nat) (c2 : Char) (r2 : List Char) :
    parseVal (f + 1) ('{' :: c2 :: r2) =
      (if c2 = '}' then some (.obj [], r2)
       else
        match parseMembers f (c2 :: r2) with
        | some (ms, rest) => some (.obj ms, rest)
        | none => none) := rfl

/-- Round-trip statement for one value: parsing its serialisation (with any
non-digit continuation and sufficient fuel) returns it exactly. -/
def SerRT (v : Value) : Prop :=
  cleanVal v = true → ∀ f, fuelVal v ≤ f → ∀ rest, noDigitHead rest = true →
    parseVal f (serializeVal v ++ rest) = some (v, rest)


theorem parseItems_ser : ∀ xs : List Value, xs ≠ [] → (∀ v ∈ xs, SerRT v) →
    cleanItems xs = true → ∀ f, fuelItems xs ≤ f → ∀ rest,
      parseItems f (serializeItems xs ++ ']' :: rest) = some (xs, rest) := by
  intro xs
  induction xs with
  | nil => intro hne; exact absurd rfl hne
  | cons v vs ihv =>
    intro _ IH hc f hf rest
    simp only [cleanItems, Bool.and_eq_true] at hc
    simp only [fuelItems] at hf
    cases f with
    | zero => omega
    | succ f =>
      have hfv : fuelVal v ≤ f := by
        have := Nat.le_max_left (fuelVal v) (fuelItems vs)
        omega
      have hfvs : fuelItems vs ≤ f := by
        have := Nat.le_max_right (fuelVal v) (fuelItems vs)
        omega
      cases vs with
      | nil =>
        have hshape : serializeItems [v] ++ ']' :: rest = serializeVal v ++ ']' :: rest := by
          simp [serializeItems]
        have hv := IH v (by simp) hc.1 f hfv (']' :: rest) rfl
        rw [hshape]
        simp only [parseItems, hv]
      | cons w ws =>
        have hshape : serializeItems (v :: w :: ws) ++ ']' :: rest =
            serializeVal v ++ ',' :: (serializeItems (w :: ws) ++ ']' :: rest) := by
          simp [serializeItems]
        have hv := IH v (by simp) hc.1 f hfv
          (',' :: (serializeItems (w :: ws) ++ ']' :: rest)) rfl
        have hvs := ihv (by simp) (fun x hx => IH x (by simp [hx])) hc.2 f hfvs rest
        rw [hshape]
        simp only [parseItems, hv, hvs]

theorem parseMembers_ser : ∀ ms : List (String × Value), ms ≠ [] →
    (∀ kv ∈ ms, SerRT kv.2) → cleanMembers ms = true → ∀ f, fuelMembers ms ≤ f → ∀ rest,
      parseMembers f (serializeMembers ms ++ '}' :: rest) = some (ms, rest) := by
  intro ms
  induction ms with
  | nil => intro hne; exact absurd rfl hne
  | cons m ms2 ihm =>
    obtain ⟨k, v⟩ := m
    intro _ IH hc f hf rest
    simp only [cleanMembers, Bool.and_eq_true] at hc
    simp only [fuelMembers] at hf
    cases f with
    | zero => omega
    | succ f =>
      have hkv : SerRT v := IH (k, v) (by simp)
      have hfv : fuelVal v ≤ f := by
        have := Nat.le_max_left (fuelVal v) (fuelMembers ms2)
        omega
      have hfms : fuelMembers ms2 ≤ f := by
        have := Nat.le_max_right (fuelVal v) (fuelMembers ms2)
        omega
      cases ms2 with
      | nil =>
        have hshape : serializeMembers [(k, v)] ++ '}' :: rest =
            '"' :: (k.data ++ '"' :: ':' :: (serializeVal v ++ '}' :: rest)) := by
          simp [serializeMembers, memberChars]
        have hts := takeStr_clean k.data hc.1.1 (':' :: (serializeVal v ++ '}' :: rest))
        have hv := hkv hc.1.2 f hfv ('}' :: rest) rfl
        rw [hshape]
        simp only [parseMembers, hts, hv, stringMk_data]
      | cons m2 ms3 =>
        have hshape : serializeMembers ((k, v) :: m2 :: ms3) ++ '}' :: rest =
            '"' :: (k.data ++ '"' :: ':' ::
              (serializeVal v ++ ',' :: (serializeMembers (m2 :: ms3) ++ '}' :: rest))) := by
          simp [serializeMembers, memberChars]
        have hts := takeStr_clean k.data hc.1.1
          (':' :: (serializeVal v ++ ',' :: (serializeMembers (m2 :: ms3) ++ '}' :: rest)))
        have hv := hkv hc.1.2 f hfv
          (',' :: (serializeMembers (m2 :: ms3) ++ '}' :: rest)) rfl
        have hms := ihm (by simp) (fun x hx => IH x (by simp [hx])) hc.2 f hfms rest
        rw [hshape]
        simp only [parseMembers, hts, hv, hms, stringMk_data]

theorem parseVal_ser : ∀ v : Value, SerRT v := by
  intro v
  induction v using Value.inductionOn with
  | hnull =>
    intro hc f hf rest hr
    cases f with
    | zero => simp [fuelVal] at hf
    | succ g => exact parseVal_null g rest
  | hbool b =>
    intro hc f hf rest hr
    cases f with
    | zero => simp [fuelVal] at hf
    | succ g =>
      cases b with
      | true => exact parseVal_true g rest
      | false => exact parseVal_false g rest
  | hint n =>
    intro hc f hf rest hr
    cases f with
    | zero => simp [fuelVal] at hf
    | succ g =>
      obtain ⟨c, r, hcr, hc2⟩ := intChars_cons n
      have hser : serializeVal (.int n) ++ rest = c :: (r ++ rest) := by
        simp [serializeVal, hcr]
      have hp : parseIntNum (c :: (r ++ rest)) = some (n, rest) := by
        rw [show c :: (r ++ rest) = (c :: r) ++ rest by simp, ← hcr]
        exact parseIntNum_intChars n rest hr
      rw [hser, parseVal_num g c (r ++ rest) hc2, hp]
  | hstr s =>
    intro hc f hf rest hr
    cases f with
    | zero => simp [fuelVal] at hf
    | succ g =>
      have hclean : s.data.all (fun c => c != '"') = true := by
        simpa [cleanVal] using hc
      have hser : serializeVal (.str s) ++ rest = '"' :: (s.data ++ '"' :: rest) := by
        simp [serializeVal]
      rw [hser, parseVal_quote, takeStr_clean s.data hclean rest]
  | htime n =>
    intro hc
    simp [cleanVal] at hc
  | harr xs ih =>
    intro hc f hf rest hr
    cases f with
    | zero => simp [fuelVal] at hf
    | succ g =>
      simp only [fuelVal] at hf
      cases xs with
      | nil =>
        have hser : serializeVal (.arr []) ++ rest = '[' :: ']' :: rest := by
          simp [serializeVal, serializeItems]
        rw [hser, parseVal_lbracket_cons, if_pos rfl]
      | cons v vs =>
        obtain ⟨c2, r2, hcr, hc2⟩ := serializeItems_cons (v :: vs) (by simp)
        have hser : serializeVal (.arr (v :: vs)) ++ rest = '[' :: c2 :: (r2 ++ ']' :: rest) := by
          simp [serializeVal, hcr]
        have hitems := parseItems_ser (v :: vs) (by simp) ih
          (by simpa [cleanVal] using hc) g (by omega) rest
        rw [hser, parseVal_lbracket_cons, if_neg hc2]
        rw [show c2 :: (r2 ++ ']' :: rest) = serializeItems (v :: vs) ++ ']' :: rest by
          simp [hcr]]
        rw [hitems]
  | hobj kvs ih =>
    intro hc f hf rest hr
    cases f with
    | zero => simp [fuelVal] at hf
    | succ g =>
      simp only [fuelVal] at hf
      cases kvs with
      | nil =>
        have hser : serializeVal (.obj []) ++ rest = '{' :: '}' :: rest := by
          simp [serializeVal, serializeMembers]
        rw [hser, parseVal_lbrace_cons, if_pos rfl]
      | cons m ms =>
        obtain ⟨r2, hcr⟩ := serializeMembers_cons (m :: ms) (by simp)
        have hser : serializeVal (.obj (m :: ms)) ++ rest = '{' :: '"' :: (r2 ++ '}' :: rest) := by
          simp [serializeVal, hcr]
        have hmem := parseMembers_ser (m :: ms) (by simp) ih
          (by simpa [cleanVal] using hc) g (by omega) rest
        rw [hser, parseVal_lbrace_cons, if_neg (by decide)]
        rw [show ('"' : Char) :: (r2 ++ '}' :: rest) = serializeMembers (m :: ms) ++ '}' :: rest by
          simp [hcr]]
        rw [hmem]

theorem fuelItems_le (xs : List Value)
    (IH : ∀ v ∈ xs, fuelVal v ≤ (serializeVal v).length + 1) :
    fuelItems xs ≤ (serializeItems xs).length + 2 := by
  induction xs with
  | nil => simp [fuelItems, serializeItems]
  | cons v vs ihv =>
    have h1 := IH v (by simp)
    cases vs with
    | nil =>
      have h0 : fuelItems ([] : List Value) = 1 := rfl
      have hm : max (fuelVal v) (fuelItems ([] : List Value)) ≤ (serializeVal v).length + 1 :=
        Nat.max_le.mpr ⟨h1, by omega⟩
      have hlen : (serializeItems [v]).length = (serializeVal v).length := by
        simp [serializeItems]
      simp only [fuelItems]
      omega
    | cons w ws =>
      have h2 := ihv (fun x hx => IH x (by simp [hx]))
      have hm : max (fuelVal v) (fuelItems (w :: ws)) ≤
          (serializeVal v).length + (serializeItems (w :: ws)).length + 2 :=
        Nat.max_le.mpr ⟨by omega, by omega⟩
      have hlen : (serializeItems (v :: w :: ws)).length =
          (serializeVal v).length + 1 + (serializeItems (w :: ws)).length := by
        simp [serializeItems]
        omega
      rw [show fuelItems (v :: w :: ws) = 1 + max (fuelVal v) (fuelItems (w :: ws)) from rfl]
      omega

theorem fuelMembers_le (ms : List (String × Value))
    (IH : ∀ kv ∈ ms, fuelVal kv.2 ≤ (serializeVal kv.2).length + 1) :
    fuelMembers ms ≤ (serializeMembers ms).length + 2 := by
  induction ms with
  | nil => simp [fuelMembers, serializeMembers]
  | cons m ms2 ihm =>
    obtain ⟨k, v⟩ := m
    have h1 : fuelVal v ≤ (serializeVal v).length + 1 := IH (k, v) (by simp)
    cases ms2 with
    | nil =>
      have h0 : fuelMembers ([] : List (String × Value)) = 1 := rfl
      have hm : max (fuelVal v) (fuelMembers ([] : List (String × Value))) ≤
          (serializeVal v).length + 1 :=
        Nat.max_le.mpr ⟨h1, by omega⟩
      have hlen : (serializeMembers [(k, v)]).length =
          k.data.length + 3 + (serializeVal v).length := by
        simp [serializeMembers, memberChars]
        omega
      simp only [fuelMembers]
      omega
    | cons m2 ms3 =>
      have h2 := ihm (fun x hx => IH x (by simp [hx]))
      have hm : max (fuelVal v) (fuelMembers (m2 :: ms3)) ≤
          (serializeVal v).length + (serializeMembers (m2 :: ms3)).length + 2 :=
        Nat.max_le.mpr ⟨by omega, by omega⟩
      have hlen : (serializeMembers ((k, v) :: m2 :: ms3)).length =
          k.data.length + 3 + (serializeVal v).length + 1 +
            (serializeMembers (m2 :: ms3)).length := by
        simp [serializeMembers, memberChars]
        omega
      rw [show fuelMembers ((k, v) :: m2 :: ms3) =
        1 + max (fuelVal v) (fuelMembers (m2 :: ms3)) from rfl]
      omega

theorem fuelVal_le_length : ∀ v : Value, fuelVal v ≤ (serializeVal v).length + 1 := by
  intro v
  induction v using Value.inductionOn with
  | hnull => simp [fuelVal]
  | hbool b => cases b <;> simp [fuelVal]
  | hint n => simp [fuelVal]
  | hstr s => simp [fuelVal]
  | htime n => simp [fuelVal]
  | harr xs ih =>
    have h1 := fuelItems_le xs ih
    have hlen : (serializeVal (.arr xs)).length = (serializeItems xs).length + 2 := by
      simp [serializeVal]
    simp only [fuelVal]
    omega
  | hobj kvs ih =>
    have h1 := fuelMembers_le kvs ih
    have hlen : (serializeVal (.obj kvs)).length = (serializeMembers kvs).length + 2 := by
      simp [serializeVal]
    simp only [fuelVal]
    omega

/-- Fidelity of the modelled JSON collaborator: parsing a serialised clean
summary value returns it exactly. -/
theorem jsonLoads_dumps (v : Value) (hc : cleanVal v = true) :
    jsonLoads (json_dumps v) = some v := by
  have hmain := parseVal_ser v hc ((serializeVal v).length + 1)
    (fuelVal_le_length v) [] rfl
  rw [List.append_nil] at hmain
  unfold jsonLoads json_dumps
  rw [show (String.mk (serializeVal v)).length = (serializeVal v).length from rfl]
  rw [show (String.mk (serializeVal v)).data = serializeVal v from rfl]
  rw [hmain]

theorem selectIdBySid_none_iff (c : Cache) (s : String) :
    selectIdBySid c s = none ↔ ∀ r ∈ c, ¬ r.sid = some s := by
  simp [selectIdBySid, List.find?_eq_none]

theorem sel_update_aux (s : String) (n : Int) : ∀ c : Cache,
    (∀ r ∈ c, ¬ r.sid = some s) → (∃ r ∈ c, r.id64 = n) →
    selectIdBySid (updateSidWhereId64 c s n) s = some n := by
  intro c
  induction c with
  | nil =>
    intro _ hex
    simp at hex
  | cons r0 rest ih =>
    intro hmiss hex
    simp only [updateSidWhereId64, List.map_cons]
    by_cases h0 : r0.id64 = n
    · rw [if_pos (by simp [h0])]
      simp only [selectIdBySid]
      rw [List.find?_cons_of_pos _ (by simp)]
      simp [h0]
    · rw [if_neg (by simp [h0])]
      simp only [selectIdBySid]
      rw [List.find?_cons_of_neg _ (by simp [hmiss r0 (by simp)])]
      have hex2 : ∃ r ∈ rest, r.id64 = n := by
        obtain ⟨r, hr, hrn⟩ := hex
        rcases List.mem_cons.mp hr with rfl | hr2
        · exact absurd hrn h0
        · exact ⟨r, hr2, hrn⟩
      have := ih (fun r hr => hmiss r (by simp [hr])) hex2
      simpa [selectIdBySid, updateSidWhereId64] using this

theorem insertOrIgnore_exists (c : Cache) (n : Int) :
    ∃ r ∈ insertOrIgnoreId64 c n, r.id64 = n := by
  unfold insertOrIgnoreId64
  by_cases ha : c.any (fun r => r.id64 == n) = true
  · rw [if_pos ha]
    obtain ⟨r, hr, hrn⟩ := List.any_eq_true.mp ha
    exact ⟨r, hr, by simpa using hrn⟩
  · rw [if_neg ha]
    exact ⟨⟨none, n⟩, by simp, rfl⟩

theorem insertOrIgnore_of_exists (c : Cache) (n : Int)
    (hex : ∃ r ∈ c, r.id64 = n) : insertOrIgnoreId64 c n = c := by
  unfold insertOrIgnoreId64
  rw [if_pos]
  obtain ⟨r, hr, hrn⟩ := hex
  exact List.any_eq_true.mpr ⟨r, hr, by simp [hrn]⟩

/-- Key cache property for the cache-hit claim: after a miss on `s` followed
by the insert-then-update store of `(s, n)`, looking up `s` finds `n`. -/
theorem selectIdBySid_store (c : Cache) (s : String) (n : Int)
    (hmiss : selectIdBySid c s = none) :
    selectIdBySid (updateSidWhereId64 (insertOrIgnoreId64 c n) s n) s = some n := by
  have hm := (selectIdBySid_none_iff c s).mp hmiss
  apply sel_update_aux s n (insertOrIgnoreId64 c n)
  · intro r hr
    unfold insertOrIgnoreId64 at hr
    by_cases ha : c.any (fun r => r.id64 == n) = true
    · rw [if_pos ha] at hr
      exact hm r hr
    · rw [if_neg ha] at hr
      rcases List.mem_append.mp hr with hr2 | hr2
      · exact hm r hr2
      · simp at hr2
        simp [hr2]
  · exact insertOrIgnore_exists c n

theorem updateSid_id64 (c : Cache) (s : String) (n : Int) :
    ∀ r ∈ updateSidWhereId64 c s n, r.id64 = n → r.sid = some s := by
  intro r hr hrn
  obtain ⟨r0, hr0, hfr⟩ := List.mem_map.mp hr
  by_cases h0 : r0.id64 = n
  · rw [if_pos (by simp [h0])] at hfr
    rw [← hfr]
  · rw [if_neg (by simp [h0])] at hfr
    rw [← hfr] at hrn
    exact absurd hrn h0

theorem uniqueIds_insertOrIgnore (c : Cache) (n : Int) (hw : uniqueIds c) :
    uniqueIds (insertOrIgnoreId64 c n) := by
  unfold insertOrIgnoreId64
  by_cases ha : c.any (fun r => r.id64 == n) = true
  · rw [if_pos ha]
    exact hw
  · rw [if_neg ha]
    have ha2 : ∀ r ∈ c, ¬ r.id64 = n := fun r hr hrn =>
      ha (List.any_eq_true.mpr ⟨r, hr, by simp [hrn]⟩)
    apply List.pairwise_append.mpr
    refine ⟨hw, by simp, ?_⟩
    intro r hr r2 hr2
    simp at hr2
    rw [hr2]
    simpa using ha2 r hr

theorem uniqueIds_updateSid (c : Cache) (s : String) (n : Int) (hw : uniqueIds c) :
    uniqueIds (updateSidWhereId64 c s n) := by
  unfold updateSidWhereId64
  apply List.pairwise_map.mpr
  apply List.Pairwise.imp_of_mem ?_ hw
  intro a b _ _ hab
  by_cases h1 : a.id64 = n <;> by_cases h2 : b.id64 = n <;>
    simp [h1, h2] <;> omega

theorem filter_eq_singleton_of_unique (n : Int) : ∀ c : Cache, uniqueIds c →
    (∃ r ∈ c, r.id64 = n) →
    ∃ r0, c.filter (fun r => r.id64 == n) = [r0] ∧ r0.id64 = n ∧ r0 ∈ c := by
  intro c
  induction c with
  | nil =>
    intro _ hex
    simp at hex
  | cons r0 rest ih =>
    intro hw hex
    have hw2 : uniqueIds rest := (List.pairwise_cons.mp hw).2
    by_cases h0 : r0.id64 = n
    · refine ⟨r0, ?_, h0, by simp⟩
      rw [List.filter_cons_of_pos (by simp [h0])]
      have hnone : rest.filter (fun r => r.id64 == n) = [] := by
        rw [List.filter_eq_nil_iff]
        intro r hr
        have := (List.pairwise_cons.mp hw).1 r hr
        simp
        omega
      rw [hnone]
    · rw [List.filter_cons_of_neg (by simp [h0])]
      have hex2 : ∃ r ∈ rest, r.id64 = n := by
        obtain ⟨r, hr, hrn⟩ := hex
        rcases List.mem_cons.mp hr with rfl | hr2
        · exact absurd hrn h0
        · exact ⟨r, hr2, hrn⟩
      obtain ⟨r1, hf, hn1, hm1⟩ := ih hw2 hex2
      exact ⟨r1, hf, hn1, by simp [hm1]⟩

/-- Core of the store idempotence claim: one store already leaves the table
in a state the second store maps to itself, with exactly one row for `n`. -/
theorem store_core (c : Cache) (s : String) (n : Int) (hw : uniqueIds c) :
    let c1 := updateSidWhereId64 (insertOrIgnoreId64 c n) s n
    updateSidWhereId64 (insertOrIgnoreId64 c1 n) s n = c1 ∧
      c1.filter (fun r => r.id64 == n) = [⟨some s, n⟩] := by
  intro c1
  have hw1 : uniqueIds c1 :=
    uniqueIds_updateSid _ s n (uniqueIds_insertOrIgnore c n hw)
  have hex1 : ∃ r ∈ c1, r.id64 = n := by
    obtain ⟨r, hr, hrn⟩ := insertOrIgnore_exists c n
    by_cases h0 : r.id64 = n
    · exact ⟨{ r with sid := some s }, List.mem_map.mpr ⟨r, hr, by rw [if_pos (by simp [h0])]⟩, h0⟩
    · exact absurd hrn h0
  have hins : insertOrIgnoreId64 c1 n = c1 := insertOrIgnore_of_exists c1 n hex1
  have hupd : updateSidWhereId64 c1 s n = c1 := by
    unfold updateSidWhereId64
    have : ∀ r ∈ c1, (if r.id64 == n then { r with sid := some s } else r) = r := by
      intro r hr
      by_cases h0 : r.id64 = n
      · rw [if_pos (by simp [h0])]
        have hs := updateSid_id64 (insertOrIgnoreId64 c n) s n r hr h0
        obtain ⟨rs, ri⟩ := r
        simp only at hs
        rw [hs]
      · rw [if_neg (by simp [h0])]
    rw [List.map_congr_left this]
    simp
  constructor
  · rw [hins, hupd]
  · obtain ⟨r0, hfil, hn0, hm0⟩ := filter_eq_singleton_of_unique n c1 hw1 hex1
    have hs0 : r0.sid = some s := updateSid_id64 _ s n r0 hm0 hn0
    rw [hfil]
    obtain ⟨rs, ri⟩ := r0
    simp only at hs0 hn0
    rw [hs0, hn0]

/-- Characterisation of a first `get_id64_from_sid` call that resolved via
the legacy endpoint: the cache missed, the extracted text coerces to an
integer `n`, and the resulting table is the insert-then-update of `(sid, n)`. -/
theorem get_id64_legacy_first (net : String → String) (c : Cache) (sid : String)
    (p : String) (c1 : Cache) (evs : List Event)
    (hnd : pyIsDigit sid = false)
    (h : get_id64_from_sid net c sid = (.ok (some (.str p)), c1, evs)) :
    ∃ n : Int, sqliteTextToInt p = some n ∧ selectIdBySid c sid = none ∧
      c1 = updateSidWhereId64 (insertOrIgnoreId64 c n) sid n := by
  unfold get_id64_from_sid at h
  rw [if_neg (by simp [hnd])] at h
  cases hsel : selectIdBySid c sid with
  | some m =>
    rw [hsel] at h
    simp at h
  | none =>
    rw [hsel] at h
    simp only [] at h
    by_cases hfind : pyFind (net (old_profile_url sid)) ("<steamID64>") ≠ -1
    · rw [if_pos hfind] at h
      cases hstore : storeMapping c sid
          (pySlice (net (old_profile_url sid))
            (pyFind (net (old_profile_url sid)) ("<steamID64>") + 11)
            (pyFind (net (old_profile_url sid)) ("</steamID64>"))) with
      | error e =>
        rw [hstore] at h
        simp at h
      | ok c2 =>
        rw [hstore] at h
        simp only [Prod.mk.injEq, Except.ok.injEq, Option.some.injEq, Value.str.injEq] at h
        obtain ⟨hp, hc2, _⟩ := h
        unfold storeMapping at hstore
        cases hcoerce : sqliteTextToInt
            (pySlice (net (old_profile_url sid))
              (pyFind (net (old_profile_url sid)) ("<steamID64>") + 11)
              (pyFind (net (old_profile_url sid)) ("</steamID64>"))) with
        | none =>
          rw [hcoerce] at hstore
          simp at hstore
        | some n =>
          rw [hcoerce] at hstore
          simp only [Except.ok.injEq] at hstore
          refine ⟨n, ?_, rfl, ?_⟩
          · rw [← hp]
            exact hcoerce
          · rw [← hc2, ← hstore]
    · rw [if_neg hfind] at h
      simp at h

theorem get_id64_cache_hit (net : String → String) (c : Cache) (sid : String) (n : Int)
    (hnd : pyIsDigit sid = false) (hsel : selectIdBySid c sid = some n) :
    get_id64_from_sid net c sid = (.ok (some (.int n)), c, [.dbSelect sid]) := by
  unfold get_id64_from_sid
  rw [if_neg (by simp [hnd]), hsel]

theorem get_summary_eq (net : String → String) (apiKey : String) (c : Cache)
    (st : ProfileState) (sid : String) (r : Option Value) (c1 : Cache) (evs : List Event)
    (h : get_id64_from_sid net c (asciiReplace sid) = (.ok r, c1, evs)) :
    profile.get_summary net apiKey c st sid =
      (let url := profile_url apiKey ++ pyStr (fallbackId64 r sid)
       match jsonLoads (net url) with
       | none => (.error .valueError, c1, st, evs ++ [.httpGet url])
       | some j =>
         match getPlayer0 j with
         | .error e => (.error e, c1, st, evs ++ [.httpGet url])
         | .ok s =>
           if pyTruthy s then (.ok s, c1, ⟨some s⟩, evs ++ [.httpGet url])
           else (.error (.profileError ("Profile not found")), c1, ⟨some s⟩,
             evs ++ [.httpGet url])) := by
  unfold profile.get_summary
  rw [h]

theorem get_summary_ok_state (net : String → String) (apiKey : String) (c : Cache)
    (st : ProfileState) (sid : String) (v : Value) (c1 : Cache) (st1 : ProfileState)
    (evs : List Event)
    (h : profile.get_summary net apiKey c st sid = (.ok v, c1, st1, evs)) :
    st1 = ⟨some v⟩ := by
  unfold profile.get_summary at h
  split at h
  · simp at h
  · simp only [] at h
    split at h
    · simp at h
    · split at h
      · simp at h
      · split at h
        · simp only [Prod.mk.injEq, Except.ok.injEq] at h
          rw [← h.2.2.1, h.1]
        · simp at h

theorem get_summary_state (net : String → String) (apiKey : String) (c : Cache)
    (st : ProfileState) (sid : String) :
    (profile.get_summary net apiKey c st sid).2.2.1 = st ∨
      ∃ s, (profile.get_summary net apiKey c st sid).2.2.1 = ⟨some s⟩ := by
  unfold profile.get_summary
  split
  · exact .inl rfl
  · simp only []
    split
    · exact .inl rfl
    · split
      · exact .inl rfl
      · split
        · exact .inr ⟨_, rfl⟩
        · exact .inr ⟨_, rfl⟩

theorem getItem_error_shape (v : Value) (key : String) (e : PyError)
    (h : Value.getItem v key = .error e) : e = .keyError key ∨ e = .typeError := by
  unfold Value.getItem at h
  cases v with
  | obj kvs =>
    simp only [] at h
    cases hl : lookupKey kvs key with
    | some w => rw [hl] at h; simp at h
    | none => rw [hl] at h; simp at h; exact .inl h.symm
  | null => simp at h; exact .inr h.symm
  | bool b => simp at h; exact .inr h.symm
  | int n => simp at h; exact .inr h.symm
  | str s => simp at h; exact .inr h.symm
  | time n => simp at h; exact .inr h.symm
  | arr xs => simp at h; exact .inr h.symm

theorem getIdx0_error_shape (v : Value) (e : PyError)
    (h : Value.getIdx0 v = .error e) :
    e = .indexError ∨ e = .typeError ∨ (∃ k, e = .keyError k) := by
  unfold Value.getIdx0 at h
  cases v with
  | arr xs =>
    cases xs with
    | nil => simp at h; exact .inl h.symm
    | cons x t => simp at h
  | str s =>
    simp only [] at h
    cases hd : s.data with
    | nil => rw [hd] at h; simp at h; exact .inl h.symm
    | cons x t => rw [hd] at h; simp at h
  | obj kvs => simp at h; exact .inr (.inr ⟨_, h.symm⟩)
  | null => simp at h; exact .inr (.inl h.symm)
  | bool b => simp at h; exact .inr (.inl h.symm)
  | int n => simp at h; exact .inr (.inl h.symm)
  | time n => simp at h; exact .inr (.inl h.symm)

/-- Extraction of `response.players.player[0]` can only raise key, index or
type errors, never a `ProfileError`. -/
theorem getPlayer0_error_shape (j : Value) (e : PyError)
    (h : getPlayer0 j = .error e) : ∀ msg, ¬ e = .profileError msg := by
  intro msg hmsg
  subst hmsg
  unfold getPlayer0 at h
  cases h1 : j.getItem ("response") with
  | error e1 =>
    rw [h1] at h
    simp [Bind.bind, Except.bind] at h
    rcases getItem_error_shape _ _ _ (h1.trans (by rw [h])) with h2 | h2 <;> simp at h2
  | ok r =>
    rw [h1] at h
    simp only [Bind.bind, Except.bind] at h
    cases h2 : r.getItem ("players") with
    | error e2 =>
      rw [h2] at h
      simp at h
      rcases getItem_error_shape _ _ _ (h2.trans (by rw [h])) with h3 | h3 <;> simp at h3
    | ok p =>
      rw [h2] at h
      simp only at h
      cases h3 : p.getItem ("player") with
      | error e3 =>
        rw [h3] at h
        simp at h
        rcases getItem_error_shape _ _ _ (h3.trans (by rw [h])) with h4 | h4 <;> simp at h4
      | ok pl =>
        rw [h3] at h
        simp only at h
        rcases getIdx0_error_shape _ _ h with h4 | h4 | ⟨k, h4⟩ <;> simp at h4

theorem get_status_of (kvs : List (String × Value)) (v : Value)
    (h : lookupKey kvs ("personastate") = some v) :
    profile.get_status ⟨some (.obj kvs)⟩ =
      (if pyEqInt v 0 then .ok (.str ("offline"))
       else if pyEqInt v 1 then .ok (.str ("online"))
       else if pyEqInt v 2 then .ok (.str ("busy"))
       else if pyEqInt v 3 then .ok (.str ("away"))
       else if pyEqInt v 4 then .ok (.str ("snooze"))
       else .ok v) := by
  unfold profile.get_status profile.attrSummary
  simp only [Bind.bind, Except.bind, Value.getItem, h]
  rfl

theorem get_visibility_of (kvs : List (String × Value)) (v : Value)
    (h : lookupKey kvs ("communityvisibilitystate") = some v) :
    profile.get_visibility ⟨some (.obj kvs)⟩ =
      (if pyEqInt v 1 then .ok (.str ("private"))
       else if pyEqInt v 2 then .ok (.str ("friends"))
       else if pyEqInt v 3 then .ok (.str ("public"))
       else .ok v) := by
  unfold profile.get_visibility profile.attrSummary
  simp only [Bind.bind, Except.bind, Value.getItem, h]
  rfl

/-- C1 (counterexample): on a freshly constructed, never-loaded instance the
typed accessor `get_persona` does not raise `ProfileError("No summary")`
(it raises the bare `AttributeError` instead), contradicting the claim that
every typed field accessor fails with the "No summary" `ProfileError`. -/
theorem c1_counterexample :
    ¬ profile.get_persona initState = .error (.profileError ("No summary")) := by
  decide

/-- C1 (amended): on a freshly constructed, never-loaded instance no
accessor returns a value: `get_summary_object` fails with
`ProfileError("No summary")`, while every typed field accessor fails with
the uncaught `AttributeError` from the unset `_summary_object` attribute. -/
theorem c1_amended :
    profile.get_summary_object initState = .error (.profileError ("No summary")) ∧
    profile.get_id64 initState = .error .attributeError ∧
    profile.get_persona initState = .error .attributeError ∧
    profile.get_profile_url initState = .error .attributeError ∧
    (∀ size, profile.get_avatar_url initState size = .error .attributeError) ∧
    profile.get_status initState = .error .attributeError ∧
    profile.get_visibility initState = .error .attributeError ∧
    profile.is_configured initState = .error .attributeError ∧
    profile.get_last_online initState = .error .attributeError ∧
    profile.is_comment_enabled initState = .error .attributeError ∧
    profile.get_real_name initState = .error .attributeError ∧
    profile.get_primary_group initState = .error .attributeError ∧
    profile.get_creation_date initState = .error .attributeError ∧
    profile.get_current_game initState = .error .attributeError ∧
    profile.get_location initState = .error .attributeError :=
  ⟨rfl, rfl, rfl, rfl, fun _ => rfl, rfl, rfl, rfl, rfl, rfl, rfl, rfl, rfl, rfl, rfl⟩

/-- C4: for a sid consisting entirely of digits, `get_id64_from_sid`
returns the sid unchanged, leaves the cache untouched, and performs no
database or network I/O at all (empty event list). -/
theorem c4_theorem (net : String → String) (c : Cache) (sid : String)
    (h : pyIsDigit sid = true) :
    get_id64_from_sid net c sid = (.ok (some (.str sid)), c, []) := by
  unfold get_id64_from_sid
  rw [if_pos h]

theorem c4_witness :
    pyIsDigit ("76561197960287930") = true ∧
    get_id64_from_sid (fun _ => "") [] ("76561197960287930") =
      (.ok (some (.str ("76561197960287930"))), [], []) :=
  ⟨by decide, c4_theorem (fun _ => "") [] ("76561197960287930") (by decide)⟩

/-- C8: `get_status` maps an integer `personastate` of 0/1/2/3/4 to
"offline"/"online"/"busy"/"away"/"snooze", and returns any other integer
(e.g. 5) unchanged. -/
theorem c8_theorem (kvs : List (String × Value)) (i : Int)
    (h : lookupKey kvs ("personastate") = some (.int i)) :
    (i = 0 → profile.get_status ⟨some (.obj kvs)⟩ = .ok (.str ("offline"))) ∧
    (i = 1 → profile.get_status ⟨some (.obj kvs)⟩ = .ok (.str ("online"))) ∧
    (i = 2 → profile.get_status ⟨some (.obj kvs)⟩ = .ok (.str ("busy"))) ∧
    (i = 3 → profile.get_status ⟨some (.obj kvs)⟩ = .ok (.str ("away"))) ∧
    (i = 4 → profile.get_status ⟨some (.obj kvs)⟩ = .ok (.str ("snooze"))) ∧
    (¬ (0 ≤ i ∧ i ≤ 4) → profile.get_status ⟨some (.obj kvs)⟩ = .ok (.int i)) := by
  rw [get_status_of kvs (.int i) h]
  refine ⟨?_, ?_, ?_, ?_, ?_, ?_⟩
  · rintro rfl; rfl
  · rintro rfl; rfl
  · rintro rfl; rfl
  · rintro rfl; rfl
  · rintro rfl; rfl
  · intro hi
    rw [if_neg (by simp [pyEqInt]; omega), if_neg (by simp [pyEqInt]; omega),
      if_neg (by simp [pyEqInt]; omega), if_neg (by simp [pyEqInt]; omega),
      if_neg (by simp [pyEqInt]; omega)]

theorem c8_witness :
    lookupKey [("personastate", Value.int 5)] ("personastate") = some (.int 5) ∧
    profile.get_status ⟨some (.obj [("personastate", .int 5)])⟩ = .ok (.int 5) ∧
    profile.get_status ⟨some (.obj [("personastate", .int 1)])⟩ = .ok (.str ("online")) :=
  ⟨by decide,
   (c8_theorem [("personastate", .int 5)] 5 (by decide)).2.2.2.2.2 (by omega),
   (c8_theorem [("personastate", .int 1)] 1 (by decide)).2.1 rfl⟩

/-- C7: `get_visibility` maps an integer `communityvisibilitystate` of
1/2/3 to "private"/"friends"/"public" and returns any other value raw; and
whenever the held summary's visibility is anything other than the string
"public", `get_current_game` and `get_location` return `None` (no game or
location keys), regardless of which fields the summary contains. -/
theorem c7_theorem (kvs : List (String × Value)) (i : Int)
    (h : lookupKey kvs ("communityvisibilitystate") = some (.int i)) :
    (i = 1 → profile.get_visibility ⟨some (.obj kvs)⟩ = .ok (.str ("private"))) ∧
    (i = 2 → profile.get_visibility ⟨some (.obj kvs)⟩ = .ok (.str ("friends"))) ∧
    (i = 3 → profile.get_visibility ⟨some (.obj kvs)⟩ = .ok (.str ("public"))) ∧
    (¬ (1 ≤ i ∧ i ≤ 3) → profile.get_visibility ⟨some (.obj kvs)⟩ = .ok (.int i)) ∧
    (∀ st v, profile.get_visibility st = .ok v → ¬ v = .str ("public") →
      profile.get_current_game st = .ok .null ∧ profile.get_location st = .ok .null) := by
  rw [get_visibility_of kvs (.int i) h]
  refine ⟨?_, ?_, ?_, ?_, ?_⟩
  · rintro rfl; rfl
  · rintro rfl; rfl
  · rintro rfl; rfl
  · intro hi
    rw [if_neg (by simp [pyEqInt]; omega), if_neg (by simp [pyEqInt]; omega),
      if_neg (by simp [pyEqInt]; omega)]
  · intro st v hvis hnp
    constructor
    · unfold profile.get_current_game
      simp only [Bind.bind, Except.bind, hvis]
      rw [if_neg hnp]
      rfl
    · unfold profile.get_location
      simp only [Bind.bind, Except.bind, hvis]
      rw [if_neg hnp]
      rfl

theorem c7_witness :
    profile.get_visibility ⟨some (.obj [("communityvisibilitystate", .int 1)])⟩ =
      .ok (.str ("private")) ∧
    profile.get_current_game
        ⟨some (.obj [("communityvisibilitystate", .int 1), ("gameid", .int 440),
          ("gameserverip", .str ("1.2.3.4:27015")), ("loccountrycode", .str ("US"))])⟩ =
      .ok .null ∧
    profile.get_location
        ⟨some (.obj [("communityvisibilitystate", .int 1), ("gameid", .int 440),
          ("gameserverip", .str ("1.2.3.4:27015")), ("loccountrycode", .str ("US"))])⟩ =
      .ok .null :=
  ⟨(c7_theorem [("communityvisibilitystate", .int 1)] 1 (by decide)).1 rfl,
   ((c7_theorem [("communityvisibilitystate", .int 1)] 1 (by decide)).2.2.2.2
     ⟨some (.obj [("communityvisibilitystate", .int 1), ("gameid", .int 440),
       ("gameserverip", .str ("1.2.3.4:27015")), ("loccountrycode", .str ("US"))])⟩
     (.str ("private")) (by decide) (by decide)).1,
   ((c7_theorem [("communityvisibilitystate", .int 1)] 1 (by decide)).2.2.2.2
     ⟨some (.obj [("communityvisibilitystate", .int 1), ("gameid", .int 440),
       ("gameserverip", .str ("1.2.3.4:27015")), ("loccountrycode", .str ("US"))])⟩
     (.str ("private")) (by decide) (by decide)).2⟩

/-- C5: the insert-then-update cache store is idempotent.  Starting from any
table satisfying sqlite's primary-key invariant, storing `(s, t)` succeeds
and yields a table `c1`; storing the same pair again maps `c1` to itself;
and `c1` holds exactly one row whose id64 is the integer value of `t`, with
that row's sid equal to `s`. -/
theorem c5_theorem (c : Cache) (s t : String) (n : Int)
    (hw : uniqueIds c) (ht : sqliteTextToInt t = some n) :
    ∃ c1, storeMapping c s t = .ok c1 ∧ storeMapping c1 s t = .ok c1 ∧
      c1.filter (fun r => r.id64 == n) = [⟨some s, n⟩] := by
  have hcore := store_core c s n hw
  refine ⟨updateSidWhereId64 (insertOrIgnoreId64 c n) s n, ?_, ?_, hcore.2⟩
  · unfold storeMapping
    rw [ht]
  · unfold storeMapping
    rw [ht]
    simp only [Except.ok.injEq]
    exact hcore.1

theorem c5_witness :
    ∃ c1, storeMapping [] ("gabe") ("123") = .ok c1 ∧
      storeMapping c1 ("gabe") ("123") = .ok c1 ∧
      c1.filter (fun r => r.id64 == 123) = [⟨some ("gabe"), 123⟩] :=
  c5_theorem [] ("gabe") ("123") 123 (by simp [uniqueIds]) (by decide)

/-- Network oracle for the concrete cache-hit scenario: the legacy endpoint
answers every request with a document resolving to id64 123. -/
def c3net : String → String := fun _ => "<steamID64>123</steamID64>"

/-- C3 (counterexample): after a first successful legacy resolution of the
vanity name "gabe" (which returns the extracted string "123" and persists
the mapping), a second call with the same name returns the cached INTEGER
column value `123` — an `int`, not the `str` the first call returned — so
the second call's return value differs from the first call's. -/
theorem c3_counterexample :
    ¬ (get_id64_from_sid c3net ((get_id64_from_sid c3net [] ("gabe")).2.1) ("gabe")).1 =
        (get_id64_from_sid c3net [] ("gabe")).1 := by
  decide

/-- C3 (amended): after one successful `get_id64_from_sid` call for a
non-numeric sid that resolved via the legacy endpoint (returning the
extracted text `p`) and persisted the mapping, a second call with the same
sid is answered from the cache alone — its event list is a single SELECT,
with no legacy-endpoint request — and returns the numerically identical
canonical id, as the integer stored in the INTEGER column rather than the
string the first call returned. -/
theorem c3_amended (net : String → String) (c : Cache) (sid p : String)
    (c1 : Cache) (evs : List Event)
    (hnd : pyIsDigit sid = false)
    (h : get_id64_from_sid net c sid = (.ok (some (.str p)), c1, evs)) :
    ∃ n : Int, sqliteTextToInt p = some n ∧
      get_id64_from_sid net c1 sid = (.ok (some (.int n)), c1, [.dbSelect sid]) := by
  obtain ⟨n, hp, hsel, hc1⟩ := get_id64_legacy_first net c sid p c1 evs hnd h
  refine ⟨n, hp, ?_⟩
  apply get_id64_cache_hit net c1 sid n hnd
  rw [hc1]
  exact selectIdBySid_store c sid n hsel

theorem c3_witness :
    ∃ n : Int, sqliteTextToInt ("123") = some n ∧
      get_id64_from_sid c3net [⟨some ("gabe"), 123⟩] ("gabe") =
        (.ok (some (.int n)), [⟨some ("gabe"), 123⟩], [.dbSelect ("gabe")]) :=
  c3_amended c3net [] ("gabe") ("123") [⟨some ("gabe"), 123⟩]
    [.dbSelect ("gabe"), .httpGet (old_profile_url ("gabe")), .dbInsert ("123"),
      .dbUpdate ("gabe") ("123")]
    (by decide) (by decide)

/-- URL of the summary request `get_summary` issues after identifier
resolution returned `r`: the api base plus `str(id64)` with the `not id64`
fallback to the original sid applied. -/
def summaryUrl (apiKey : String) (r : Option Value) (sid : String) : String :=
  profile_url apiKey ++ pyStr (fallbackId64 r sid)

/-- Network oracle whose summary endpoint answers with an empty player
list, so that `response.players.player[0]` raises `IndexError`. -/
def c2net : String → String :=
  fun _ => "\x7b\"response\":\x7b\"players\":\x7b\"player\":[]\x7d\x7d\x7d"

/-- C2 (counterexample): when the summary response's player element is
absent (`player` is the empty list), `get_summary` does not fail with
`ProfileError("Profile not found")` — the subscript `[0]` raises a bare
`IndexError` before the truthiness check is reached. -/
theorem c2_counterexample :
    (profile.get_summary c2net ("k") [] initState ("76561197960287930")).1 =
        .error .indexError ∧
    ¬ (profile.get_summary c2net ("k") [] initState ("76561197960287930")).1 =
        .error (.profileError ("Profile not found")) := by
  refine ⟨by decide, by decide⟩

/-- C2 (amended): for a response whose parsed body lacks the
`response.players.player[0]` element, `get_summary` propagates the raw
lookup error (a key/index/type error, never a `ProfileError`) and leaves
the held summary unchanged; when the element is present but empty (falsy),
it is stored as the held summary and `ProfileError("Profile not found")` is
raised; when it is a non-empty record, it is stored and returned. -/
theorem c2_amended (net : String → String) (apiKey : String) (c : Cache)
    (st : ProfileState) (sid : String) (r : Option Value) (c1 : Cache) (evs : List Event)
    (h : get_id64_from_sid net c (asciiReplace sid) = (.ok r, c1, evs)) :
    (∀ j e, jsonLoads (net (summaryUrl apiKey r sid)) = some j → getPlayer0 j = .error e →
      profile.get_summary net apiKey c st sid =
          (.error e, c1, st, evs ++ [.httpGet (summaryUrl apiKey r sid)]) ∧
        ∀ msg, ¬ e = .profileError msg) ∧
    (∀ j s, jsonLoads (net (summaryUrl apiKey r sid)) = some j → getPlayer0 j = .ok s →
      pyTruthy s = false →
      profile.get_summary net apiKey c st sid =
        (.error (.profileError ("Profile not found")), c1, ⟨some s⟩,
          evs ++ [.httpGet (summaryUrl apiKey r sid)])) ∧
    (∀ j s, jsonLoads (net (summaryUrl apiKey r sid)) = some j → getPlayer0 j = .ok s →
      pyTruthy s = true →
      profile.get_summary net apiKey c st sid =
        (.ok s, c1, ⟨some s⟩, evs ++ [.httpGet (summaryUrl apiKey r sid)])) := by
  refine ⟨?_, ?_, ?_⟩
  · intro j e hj he
    simp only [summaryUrl] at hj
    rw [get_summary_eq net apiKey c st sid r c1 evs h]
    simp only [hj, he, summaryUrl]
    exact ⟨trivial, getPlayer0_error_shape j e he⟩
  · intro j s hj hs htr
    simp only [summaryUrl] at hj
    rw [get_summary_eq net apiKey c st sid r c1 evs h]
    simp only [hj, hs, htr, summaryUrl]
    simp
  · intro j s hj hs htr
    simp only [summaryUrl] at hj
    rw [get_summary_eq net apiKey c st sid r c1 evs h]
    simp only [hj, hs, htr, summaryUrl]
    simp

theorem c2_witness :
    profile.get_summary c2net ("k") [] initState ("76561197960287930") =
      (.error .indexError, [], initState,
        [.httpGet (summaryUrl ("k") (some (.str ("76561197960287930")))
          ("76561197960287930"))]) ∧
    (∀ msg, ¬ PyError.indexError = .profileError msg) :=
  (c2_amended c2net ("k") [] initState ("76561197960287930")
      (some (.str ("76561197960287930"))) [] [] (by decide)).1
    (.obj [("response", .obj [("players", .obj [("player", .arr [])])])]) .indexError
    (by decide) (by decide)

/-- C6: when identifier resolution returns no value (the legacy document
had no `<steamID64>` element), `get_summary` does not raise any resolution
error: it falls back to the original input and issues the summary request
with that sid spliced verbatim into the URL. -/
theorem c6_theorem (net : String → String) (apiKey : String) (c : Cache)
    (st : ProfileState) (sid : String) (c1 : Cache) (evs : List Event)
    (h : get_id64_from_sid net c (asciiReplace sid) = (.ok none, c1, evs)) :
    (profile.get_summary net apiKey c st sid).2.2.2 =
      evs ++ [.httpGet (profile_url apiKey ++ sid)] := by
  rw [get_summary_eq net apiKey c st sid none c1 evs h]
  simp only []
  split
  · rfl
  · split
    · rfl
    · split
      · rfl
      · rfl

theorem c6_witness :
    (profile.get_summary (fun _ => "nope") ("k") [] initState ("gabe")).2.2.2 =
      [.dbSelect ("gabe"), .httpGet (old_profile_url ("gabe"))] ++
        [.httpGet (profile_url ("k") ++ "gabe")] :=
  c6_theorem (fun _ => "nope") ("k") [] initState ("gabe") []
    [.dbSelect ("gabe"), .httpGet (old_profile_url ("gabe"))] (by decide)

/-- Summary-endpoint body of the spec's concrete scenario (section 8). -/
def scenBody : String :=
  "\x7b\"response\":\x7b\"players\":\x7b\"player\":[\x7b\"steamid\":\"76561197960287930\"," ++
    "\"personaname\":\"Robin\",\"personastate\":1,\"communityvisibilitystate\":3," ++
    "\"lastlogoff\":1000000000\x7d]\x7d\x7d\x7d"

/-- Network oracle answering every request with the scenario body. -/
def scenNet : String → String := fun _ => scenBody

/-- Player record carried by the scenario body. -/
def scenSummary : Value :=
  .obj [("steamid", .str ("76561197960287930")), ("personaname", .str ("Robin")),
    ("personastate", .int 1), ("communityvisibilitystate", .int 3),
    ("lastlogoff", .int 1000000000)]

/-- C9: round trip.  A summary obtained from a successful `get_summary`
fetch, serialised in JSON mode (`json_dumps`) or pickled mode
(`pickle_dumps`) and loaded through `load_summary_file` into any instance,
yields exactly the fetched instance state, so every field accessor returns
a value equal to what it returns on the original accessor.  The
`cleanVal` hypothesis restricts to summaries this model serialises exactly
(no embedded double quotes, which is where the JSON model omits escape
sequences). -/
theorem c9_theorem (net : String → String) (apiKey : String) (c : Cache)
    (st st0 st0' : ProfileState) (sid : String) (v : Value) (c1 : Cache)
    (st1 : ProfileState) (evs : List Event)
    (hfetch : profile.get_summary net apiKey c st sid = (.ok v, c1, st1, evs))
    (hclean : cleanVal v = true) :
    ∃ stJ stP,
      profile.load_summary_file st0 (.jsonText (json_dumps v)) = (.ok (), stJ) ∧
      profile.load_summary_file st0' (profile.pickle_dumps v) = (.ok (), stP) ∧
      stJ = st1 ∧ stP = st1 ∧
      profile.get_summary_object stJ = profile.get_summary_object st1 ∧
      profile.get_id64 stJ = profile.get_id64 st1 ∧
      profile.get_persona stJ = profile.get_persona st1 ∧
      profile.get_profile_url stJ = profile.get_profile_url st1 ∧
      (∀ size, profile.get_avatar_url stJ size = profile.get_avatar_url st1 size) ∧
      profile.get_status stJ = profile.get_status st1 ∧
      profile.get_visibility stJ = profile.get_visibility st1 ∧
      profile.is_configured stJ = profile.is_configured st1 ∧
      profile.get_last_online stJ = profile.get_last_online st1 ∧
      profile.is_comment_enabled stJ = profile.is_comment_enabled st1 ∧
      profile.get_real_name stJ = profile.get_real_name st1 ∧
      profile.get_primary_group stJ = profile.get_primary_group st1 ∧
      profile.get_creation_date stJ = profile.get_creation_date st1 ∧
      profile.get_current_game stJ = profile.get_current_game st1 ∧
      profile.get_location stJ = profile.get_location st1 ∧
      profile.get_summary_object stP = profile.get_summary_object st1 ∧
      profile.get_id64 stP = profile.get_id64 st1 ∧
      profile.get_persona stP = profile.get_persona st1 ∧
      profile.get_profile_url stP = profile.get_profile_url st1 ∧
      (∀ size, profile.get_avatar_url stP size = profile.get_avatar_url st1 size) ∧
      profile.get_status stP = profile.get_status st1 ∧
      profile.get_visibility stP = profile.get_visibility st1 ∧
      profile.is_configured stP = profile.is_configured st1 ∧
      profile.get_last_online stP = profile.get_last_online st1 ∧
      profile.is_comment_enabled stP = profile.is_comment_enabled st1 ∧
      profile.get_real_name stP = profile.get_real_name st1 ∧
      profile.get_primary_group stP = profile.get_primary_group st1 ∧
      profile.get_creation_date stP = profile.get_creation_date st1 ∧
      profile.get_current_game stP = profile.get_current_game st1 ∧
      profile.get_location stP = profile.get_location st1 := by
  have hstate : st1 = ⟨some v⟩ :=
    get_summary_ok_state net apiKey c st sid v c1 st1 evs hfetch
  subst hstate
  refine ⟨⟨some v⟩, ⟨some v⟩, ?_, rfl, rfl, rfl, rfl, rfl, rfl, rfl, fun _ => rfl, rfl,
    rfl, rfl, rfl, rfl, rfl, rfl, rfl, rfl, rfl, rfl, rfl, rfl, rfl, fun _ => rfl, rfl,
    rfl, rfl, rfl, rfl, rfl, rfl, rfl, rfl, rfl⟩
  unfold profile.load_summary_file
  simp only []
  rw [jsonLoads_dumps v hclean]

theorem c9_witness :
    profile.load_summary_file initState (.jsonText (json_dumps scenSummary)) =
      (.ok (), (⟨some scenSummary⟩ : ProfileState)) ∧
    profile.load_summary_file ⟨some .null⟩ (profile.pickle_dumps scenSummary) =
      (.ok (), (⟨some scenSummary⟩ : ProfileState)) := by
  obtain ⟨stJ, stP, h1, h2, h3, h4, _⟩ :=
    c9_theorem scenNet ("k") [] initState initState ⟨some .null⟩ ("76561197960287930")
      scenSummary [] ⟨some scenSummary⟩
      [.httpGet (profile_url ("k") ++ "76561197960287930")]
      (by decide) (by decide)
  rw [h3] at h1
  rw [h4] at h2
  exact ⟨h1, h2⟩

/-- C10: state machine of the held summary.  A fresh instance is UNLOADED
(`summary = none`); no fetch or load operation ever takes a LOADED instance
back to UNLOADED; a successful fetch replaces the held summary with the
newly fetched record, and a load (pickled, or JSON with a parseable
document) replaces it with the loaded document. -/
theorem c10_theorem :
    initState.summary = none ∧
    (∀ st op, st.summary.isSome = true → ((profile.applyOp st op).summary).isSome = true) ∧
    (∀ net apiKey c st sid v c1 st1 evs,
      profile.get_summary net apiKey c st sid = (.ok v, c1, st1, evs) →
        st1 = ⟨some v⟩) ∧
    (∀ st v, profile.load_summary_file st (.pickled v) = (.ok (), ⟨some v⟩)) ∧
    (∀ st t v, jsonLoads t = some v →
      profile.load_summary_file st (.jsonText t) = (.ok (), ⟨some v⟩)) := by
  refine ⟨rfl, ?_, ?_, ?_, ?_⟩
  · intro st op hsome
    cases op with
    | fetch net apiKey c sid =>
      unfold profile.applyOp
      simp only []
      rcases get_summary_state net apiKey c st sid with hst | ⟨s, hst⟩
      · rw [hst]
        exact hsome
      · rw [hst]
        rfl
    | load doc =>
      cases doc with
      | pickled v => rfl
      | jsonText t =>
        unfold profile.applyOp profile.load_summary_file
        simp only []
        cases hj : jsonLoads t with
        | some v => rfl
        | none => exact hsome
  · exact fun net apiKey c st sid v c1 st1 evs h =>
      get_summary_ok_state net apiKey c st sid v c1 st1 evs h
  · intro st v
    rfl
  · intro st t v hj
    unfold profile.load_summary_file
    simp only []
    rw [hj]

theorem c10_witness :
    ((profile.applyOp ⟨some (.int 7)⟩ (.load (.pickled .null))).summary).isSome = true ∧
    profile.load_summary_file initState (.jsonText ("null")) = (.ok (), ⟨some .null⟩) :=
  ⟨c10_theorem.2.1 ⟨some (.int 7)⟩ (.load (.pickled .null)) (by decide),
   c10_theorem.2.2.2.2 initState ("null") .null (by decide)⟩
